import Mathlib

/-!
Shallow embedding of the mRNABench sharded embedding / merge pipeline.

Source files embedded here:
  - mrna_bench/models/embedding_model.py   (chunk_sequence, chunk_tokens)
  - mrna_bench/embedder/dataset_embedder.py (DatasetEmbedder: get_dataset_chunk,
    embed_dataset, persist_embeddings, merge_embeddings)
  - mrna_bench/linear_probe/embedder/embedder_utils.py (get_output_filename)

Python strings are modelled as `List Char`; Python machine-free ints used as
lengths/indices are modelled as `Nat` (all values arising in the pipeline are
nonnegative).  Fallible Python code (raising exceptions) is modelled with
`Except PyError`.
-/

namespace MrnaBench

/-- Python exception kinds raised by the embedded code. -/
inductive PyError where
  | valueError
  | indexError
  | fileNotFoundError
  | runtimeError
  deriving DecidableEq, Repr

/-! ## Sequence chunking (EmbeddingModel.chunk_sequence / chunk_tokens)

Source (mrna_bench/models/embedding_model.py):

    if overlap_size >= chunk_length:
        raise ValueError("overlap_size must be less than chunk_length")
    step_size = chunk_length - overlap_size
    chunks = []
    for i in range(0, len(sequence), step_size):
        chunk = sequence[i:i + chunk_length]
        chunks.append(chunk)
    return chunks
-/

/-- Python `range(0, stop, step)` for `step > 0`: the list
`[0, step, 2*step, ...]` of all multiples of `step` below `stop`. -/
def py_range (stop step : Nat) : List Nat :=
  (List.range ((stop + step - 1) / step)).map (· * step)

/-- Python slice `xs[i : i + len]` for nonnegative `i`, `len`. -/
def pySlice (xs : List α) (i len : Nat) : List α :=
  (xs.drop i).take len

/-- EmbeddingModel.chunk_sequence from mrna_bench/models/embedding_model.py. -/
def chunk_sequence (sequence : List Char) (chunk_length overlap_size : Nat) :
    Except PyError (List (List Char)) :=
  if chunk_length ≤ overlap_size then .error .valueError
  else
    .ok ((py_range sequence.length (chunk_length - overlap_size)).map
      (fun i => pySlice sequence i chunk_length))

/-- EmbeddingModel.chunk_tokens from mrna_bench/models/embedding_model.py:
the same loop, on a list of integer tokens. -/
def chunk_tokens (sequence_tokens : List Int) (chunk_length overlap_size : Nat) :
    Except PyError (List (List Int)) :=
  if chunk_length ≤ overlap_size then .error .valueError
  else
    .ok ((py_range sequence_tokens.length (chunk_length - overlap_size)).map
      (fun i => pySlice sequence_tokens i chunk_length))

/-- Modelled from the spec (refinement side of C10): the window of the input
covering index range [start, start + C), clipped to the input length. -/
def specWindow (xs : List α) (start C : Nat) : List α :=
  (xs.take (start + C)).drop start

/-! ## Dataset sharding (DatasetEmbedder.get_dataset_chunk)

Source (mrna_bench/embedder/dataset_embedder.py):

    if self.d_num_chunks == 0:
        self.d_chunk_size = len(self.data_df)
    else:
        self.d_chunk_size = (len(self.data_df) // self.d_num_chunks) + 1

    def get_dataset_chunk(self):
        if self.d_num_chunks == 0:
            return self.data_df
        s = self.d_chunk_size * self.d_chunk_ind
        e = s + self.d_chunk_size
        chunk_df = self.data_df.iloc[s:e]
        return chunk_df
-/

/-- Shard size computed in DatasetEmbedder.__init__ (`self.d_chunk_size`). -/
def d_chunk_size (N d_num_chunks : Nat) : Nat :=
  if d_num_chunks = 0 then N else N / d_num_chunks + 1

/-- DatasetEmbedder.get_dataset_chunk: the dataframe is modelled as a list of
rows; `iloc[s:e]` is the clipped slice. -/
def get_dataset_chunk (data_df : List α) (d_num_chunks d_chunk_ind : Nat) :
    List α :=
  if d_num_chunks = 0 then data_df
  else
    pySlice data_df (d_chunk_size data_df.length d_num_chunks * d_chunk_ind)
      (d_chunk_size data_df.length d_num_chunks)

/-! ## Per-row embedding (DatasetEmbedder.embed_dataset)

Source (mrna_bench/embedder/dataset_embedder.py):

    dataset_chunk = self.get_dataset_chunk()
    dataset_embeddings = []
    for _, row in tqdm(dataset_chunk.iterrows(), total=len(dataset_chunk)):
        if self.model.is_sixtrack:
            embedding = self.model.embed_sequence_sixtrack(
                row["sequence"], row["cds"], row["splice"],
                self.s_chunk_overlap)
        else:
            embedding = self.model.embed_sequence(
                row["sequence"], self.s_chunk_overlap)
        dataset_embeddings.append(embedding)
    embeddings = torch.cat(dataset_embeddings, dim=0)

A torch tensor of shape (r x H) is modelled as a list of `r` rows, each a
`List E`; `torch.cat(_, dim=0)` concatenates the per-call row lists, and
raises a RuntimeError when handed an empty list of tensors — which happens
exactly when the shard is empty.  Each model call is documented to return a
`(1 x H)` tensor, i.e. a one-row matrix. -/

/-- Dataset row: sequence string plus cds / splice indicator tracks. -/
structure DataRow where
  sequence : List Char
  cds : List Int
  splice : List Int
  deriving DecidableEq

/-- EmbeddingModel collaborator interface, as consumed by DatasetEmbedder:
capability flag plus the two embedding methods, each returning a matrix
(list of rows with entries of type `E`). -/
structure Model (E : Type) where
  is_sixtrack : Bool
  embed_sequence : List Char → Nat → List (List E)
  embed_sequence_sixtrack : List Char → List Int → List Int → Nat → List (List E)

/-- Body of the loop in DatasetEmbedder.embed_dataset: the branch on
`self.model.is_sixtrack` selecting which model method embeds one row. -/
def embed_row (m : Model E) (s_chunk_overlap : Nat) (row : DataRow) :
    List (List E) :=
  if m.is_sixtrack then
    m.embed_sequence_sixtrack row.sequence row.cds row.splice s_chunk_overlap
  else
    m.embed_sequence row.sequence s_chunk_overlap

/-- Semantics of `torch.cat(ts, dim=0)` on a list of matrices: concatenation
of their rows, raising RuntimeError ("expected a non-empty list of Tensors")
when the list is empty. -/
def torch_cat (ts : List (List (List E))) : Except PyError (List (List E)) :=
  match ts with
  | [] => .error .runtimeError
  | _ => .ok ts.flatten

/-- DatasetEmbedder.embed_dataset: embeds each row of the current dataset
chunk in order and concatenates the per-row results along dimension 0 with
`torch.cat`; raises when the shard is empty, because `torch.cat` is then
called on an empty list. -/
def embed_dataset (m : Model E) (s_chunk_overlap : Nat) (data_df : List DataRow)
    (d_num_chunks d_chunk_ind : Nat) : Except PyError (List (List E)) :=
  torch_cat ((get_dataset_chunk data_df d_num_chunks d_chunk_ind).map
    (embed_row m s_chunk_overlap))

/-! ## Artifact naming (get_output_filename)

Source (mrna_bench/linear_probe/embedder/embedder_utils.py; the identical
naming scheme is specified in spec §6 for mrna_bench/embedder/embedder_utils.py,
whose source is not included):

    out_path = "{}/{}_{}_o{}".format(
        output_dir, dataset_name, model_name, sequence_chunk_overlap)
    if d_chunk_max_ind != 0:
        out_path += "_{}-{}".format(d_chunk_ind, d_chunk_max_ind)
    return out_path

Names are modelled at the level of file stems relative to the embedding
directory: `np.savez_compressed` appends the constant ".npz" extension to
every artifact and `Path.stem` strips it again, so the extension is dropped
from the model. -/

/-- Decimal digit character for `d < 10`. -/
def digitChar (d : Nat) : Char := Char.ofNat (48 + d)

/-- Decimal rendering of a natural number, most significant digit first
(fuel-based helper; the fuel is always sufficient at `n + 1`). -/
def natCharsAux : Nat → Nat → List Char
  | 0, _ => []
  | fuel + 1, n =>
    if n < 10 then [digitChar n]
    else natCharsAux fuel (n / 10) ++ [digitChar (n % 10)]

/-- Decimal rendering of a natural number, as produced by Python `str(n)`
for nonnegative `n`. -/
def natChars (n : Nat) : List Char := natCharsAux (n + 1) n

/-- Python `int(s)` restricted to nonnegative decimal literals: `none` models
a raised ValueError (empty string or non-digit character). -/
def charsToNat? (s : List Char) : Option Nat :=
  if s = [] then none else go 0 s
where
  go (acc : Nat) : List Char → Option Nat
    | [] => some acc
    | c :: rest =>
      if c.isDigit then go (acc * 10 + (c.toNat - 48)) rest else none

/-- Python `str.split(sep)` for a one-character separator: always returns at
least one (possibly empty) piece. -/
def splitOnChar (sep : Char) : List Char → List (List Char)
  | [] => [[]]
  | c :: rest =>
    match splitOnChar sep rest with
    | [] => [[]]
    | piece :: pieces =>
      if c = sep then [] :: piece :: pieces else (c :: piece) :: pieces

/-- get_output_filename: standardized embedding artifact file stem
`{dataset_name}_{model_name}_o{overlap}[_{d_chunk_ind}-{d_chunk_max_ind}]`,
the shard suffix present only when `d_chunk_max_ind ≠ 0`. -/
def get_output_filename (dataset_name model_name : List Char)
    (sequence_chunk_overlap d_chunk_ind d_chunk_max_ind : Nat) : List Char :=
  dataset_name ++ '_' :: model_name ++ '_' :: 'o' ::
    natChars sequence_chunk_overlap ++
    (if d_chunk_max_ind = 0 then []
     else '_' :: natChars d_chunk_ind ++ '-' :: natChars d_chunk_max_ind)

/-! ## Filesystem model

The embedding output directory is the only shared mutable state touched by
`persist_embeddings` and `merge_embeddings`.  It is modelled as an ordered
association list from file stems to file data; the list order is the
(unspecified) directory iteration order of `Path.iterdir`.  A file is either
fully written (`full`, holding the stored embedding matrix as a list of rows
of `Int` entries) or truncated by an interrupted write (`truncated`). -/

/-- Data stored in an artifact file. -/
inductive FileData where
  | full (rows : List (List Int))
  | truncated
  deriving DecidableEq, Repr

/-- The embedding directory: file stems paired with their data, in directory
iteration order. -/
abbrev FS : Type := List (List Char × FileData)

/-- First entry of the directory with the given stem, if any. -/
def fsFind (fs : FS) (name : List Char) : Option FileData :=
  match fs with
  | [] => none
  | (n, d) :: rest => if n = name then some d else fsFind rest name

/-- Effect of `np.savez_compressed(name, ...)` on the directory: replaces any
existing file of that stem, else appends a new one. -/
def fsWrite (fs : FS) (name : List Char) (d : FileData) : FS :=
  match fs with
  | [] => [(name, d)]
  | (n, d0) :: rest =>
    if n = name then (n, d) :: rest else (n, d0) :: fsWrite rest name d

/-- Effect of `Path(name).unlink()`: removes the file, raising
FileNotFoundError when it is absent (`missing_ok` is left at its default). -/
def fsUnlink (fs : FS) (name : List Char) : Except PyError FS :=
  match fs with
  | [] => .error .fileNotFoundError
  | (n, d) :: rest =>
    if n = name then .ok rest
    else (fsUnlink rest name).map ((n, d) :: ·)

/-- Effect of `np.load(name)["embedding"]`: the stored matrix; raises
FileNotFoundError when the file is absent, and a load error (modelled as
ValueError) when the file is truncated. -/
def np_load (fs : FS) (name : List Char) : Except PyError (List (List Int)) :=
  match fsFind fs name with
  | none => .error .fileNotFoundError
  | some .truncated => .error .valueError
  | some (.full rows) => .ok rows

/-! ## Shard persistence and atomicity (DatasetEmbedder.persist_embeddings)

Source:

    out_path = get_output_filename(
        self.dataset.embedding_dir, self.model.short_name,
        self.dataset.dataset_name, self.s_chunk_overlap,
        self.d_chunk_ind, self.d_num_chunks)
    np_embeddings = embeddings.float().detach().cpu().numpy()
    np.savez_compressed(out_path, embedding=np_embeddings)

To reason about interrupted writes, the write sites are also given as traces
of low-level filesystem operations. -/

/-- Low-level filesystem operations an artifact write may perform. -/
inductive FsOp where
  | writeFile (name : List Char) (rows : List (List Int))
  | rename (src dst : List Char)
  | unlinkOp (name : List Char)
  deriving DecidableEq, Repr

/-- Completed effect of one filesystem operation. -/
def applyOp (fs : FS) : FsOp → FS
  | .writeFile name rows => fsWrite fs name (.full rows)
  | .rename src dst =>
    match fsFind fs src with
    | none => fs
    | some d => fsWrite ((fsUnlink fs src).toOption.getD fs) dst d
  | .unlinkOp name => (fsUnlink fs name).toOption.getD fs

/-- Completed effect of a trace of filesystem operations. -/
def runOps (fs : FS) (ops : List FsOp) : FS := ops.foldl applyOp fs

/-- Directory states observable if the process crashes somewhere during the
trace: before each operation, in the middle of a (non-atomic) file write —
which leaves a truncated file at the written path — or never (the crash-free
completion is not included). `rename` and `unlink` are atomic. -/
def crashStates (fs : FS) : List FsOp → List FS
  | [] => [fs]
  | op :: rest =>
    fs ::
      (match op with
       | .writeFile name _ => [fsWrite fs name .truncated]
       | _ => []) ++
      crashStates (applyOp fs op) rest

/-- Trace of filesystem operations performed by `np.savez_compressed(name)`:
a single direct (non-atomic) write at the target path. -/
def savez_ops (name : List Char) (rows : List (List Int)) : List FsOp :=
  [.writeFile name rows]

/-- DatasetEmbedder.persist_embeddings, as its trace of filesystem
operations: one direct `np.savez_compressed` write at the shard stem. -/
def persist_embeddings_ops (dataset_name model_name : List Char)
    (s_chunk_overlap d_chunk_ind d_num_chunks : Nat)
    (rows : List (List Int)) : List FsOp :=
  savez_ops
    (get_output_filename dataset_name model_name s_chunk_overlap
      d_chunk_ind d_num_chunks) rows

/-- DatasetEmbedder.persist_embeddings, as a directory transformer. -/
def persist_embeddings (dataset_name model_name : List Char)
    (s_chunk_overlap d_chunk_ind d_num_chunks : Nat)
    (rows : List (List Int)) (fs : FS) : FS :=
  runOps fs
    (persist_embeddings_ops dataset_name model_name s_chunk_overlap
      d_chunk_ind d_num_chunks rows)

/-- The merged-artifact write in merge_embeddings
(`np.savez_compressed(out_fn, embedding=all_embeddings)`), as its trace of
filesystem operations: one direct write at the unsharded stem. -/
def merge_write_ops (dataset_name model_name : List Char)
    (s_chunk_overlap : Nat) (rows : List (List Int)) : List FsOp :=
  savez_ops (get_output_filename dataset_name model_name s_chunk_overlap 0 0)
    rows

/-- Modelled from the spec (for C5): an atomic replace-on-success discipline
never performs a direct (interruptible) file write at the final path; the
final path may only appear as the destination of an atomic rename. -/
def atomicWriteDiscipline (ops : List FsOp) (finalPath : List Char) : Prop :=
  ∀ op ∈ ops, ∀ rows, op ≠ FsOp.writeFile finalPath rows

/-! ## Shard merging (DatasetEmbedder.merge_embeddings)

Source:

    all_chunks = list(range(self.d_num_chunks))
    processed_files_paths = []
    processed_chunk_inds = []
    for file in Path(self.dataset.embedding_dir).iterdir():
        if not file.is_file():
            continue
        file_name = file.stem
        file_name_arr = file_name.split("_")
        if file_name_arr[0] != self.dataset.dataset_name:
            continue
        if file_name_arr[1] != self.model.short_name:
            continue
        if int(file_name_arr[2][1:]) != self.s_chunk_overlap:
            continue
        chunk_coords = file_name_arr[3].split("-")
        if int(chunk_coords[-1]) != self.d_num_chunks:
            continue
        processed_chunk_inds.append(int(chunk_coords[0]))
        processed_files_paths.append(file)
    if len(set(all_chunks) - set(processed_chunk_inds)) > 0:
        return
    processed_files_paths = sorted(
        processed_files_paths,
        key=lambda x: int(Path(x).stem.split("_")[-1].split("-")[0]))
    embeddings = []
    for file_path in processed_files_paths:
        embedding_chunk = np.load(file_path)["embedding"]
        embeddings.append(embedding_chunk)
    all_embeddings = np.concatenate(embeddings, axis=0)
    out_fn = get_output_filename(
        self.dataset.embedding_dir, self.model.short_name,
        self.dataset.dataset_name, self.s_chunk_overlap)
    np.savez_compressed(out_fn, embedding=all_embeddings)
    for file in processed_files_paths:
        Path(file).unlink()

Python list indexing (`arr[1]`) raises IndexError when out of range, and
`int(...)` raises ValueError on a non-numeric string; both are modelled in
`Except`.  Every directory entry is a file in this model (no
subdirectories), so the `is_file()` guard is vacuous. -/

/-- Loop body of the directory scan in merge_embeddings, for one file stem:
`.ok none` when a filter rejects the file (`continue`), `.ok (some ind)` when
it is collected as shard `ind`, `.error` when indexing or `int` parsing
raises. -/
def scan_one (dataset_name model_name : List Char)
    (s_chunk_overlap d_num_chunks : Nat) (stem : List Char) :
    Except PyError (Option Nat) :=
  let arr := splitOnChar '_' stem
  if arr.headD [] ≠ dataset_name then .ok none
  else
    match arr[1]? with
    | none => .error .indexError
    | some a1 =>
      if a1 ≠ model_name then .ok none
      else
        match arr[2]? with
        | none => .error .indexError
        | some a2 =>
          match charsToNat? (a2.drop 1) with
          | none => .error .valueError
          | some o =>
            if o ≠ s_chunk_overlap then .ok none
            else
              match arr[3]? with
              | none => .error .indexError
              | some a3 =>
                let chunk_coords := splitOnChar '-' a3
                match charsToNat? (chunk_coords.getLastD []) with
                | none => .error .valueError
                | some k =>
                  if k ≠ d_num_chunks then .ok none
                  else
                    match charsToNat? (chunk_coords.headD []) with
                    | none => .error .valueError
                    | some ind => .ok (some ind)

/-- Directory scan loop of merge_embeddings: collects, in directory order,
the stems accepted by `scan_one` paired with their parsed shard indices
(the parallel lists `processed_files_paths` / `processed_chunk_inds`). -/
def scan_files (dataset_name model_name : List Char)
    (s_chunk_overlap d_num_chunks : Nat) :
    FS → Except PyError (List (List Char × Nat))
  | [] => .ok []
  | (stem, _) :: rest =>
    match scan_one dataset_name model_name s_chunk_overlap d_num_chunks stem with
    | .error e => .error e
    | .ok none =>
      scan_files dataset_name model_name s_chunk_overlap d_num_chunks rest
    | .ok (some ind) =>
      (scan_files dataset_name model_name s_chunk_overlap d_num_chunks
        rest).map ((stem, ind) :: ·)

/-- Sort key used by merge_embeddings:
`int(Path(x).stem.split("_")[-1].split("-")[0])`.  Parse failures (which
would raise in Python) are given the default 0; they never arise for stems
produced by `get_output_filename`. -/
def merge_sort_key (stem : List Char) : Nat :=
  (charsToNat?
    ((splitOnChar '-' ((splitOnChar '_' stem).getLastD [])).headD [])).getD 0

/-- Stable insertion of an element into a list sorted ascending by key
(earlier elements win ties, as in Python `sorted`). -/
def insertSorted (key : α → Nat) (x : α) : List α → List α
  | [] => [x]
  | y :: rest =>
    if key x ≤ key y then x :: y :: rest else y :: insertSorted key x rest

/-- Stable ascending sort by key, modelling Python `sorted(_, key=_)`. -/
def sortByKey (key : α → Nat) : List α → List α
  | [] => []
  | x :: rest => insertSorted key x (sortByKey key rest)

/-- Load loop of merge_embeddings: `np.load(file_path)["embedding"]` for each
collected path, in sorted order. -/
def load_all (fs : FS) : List (List Char) → Except PyError (List (List (List Int)))
  | [] => .ok []
  | p :: rest =>
    match np_load fs p with
    | .error e => .error e
    | .ok rows => (load_all fs rest).map (rows :: ·)

/-- Deletion loop of merge_embeddings: `Path(file).unlink()` for each merged
shard path, propagating FileNotFoundError for absent files. -/
def unlink_all (fs : FS) : List (List Char) → Except PyError FS
  | [] => .ok fs
  | p :: rest =>
    match fsUnlink fs p with
    | .error e => .error e
    | .ok fs2 => unlink_all fs2 rest

/-- DatasetEmbedder.merge_embeddings as a transformer of the embedding
directory: scans for this group's shard artifacts, returns the directory
unchanged when any index in 0..d_num_chunks-1 is missing, else concatenates
the shard matrices in ascending parsed-index order, writes the merged
artifact under the unsharded stem, and deletes the shard files. -/
def merge_embeddings (dataset_name model_name : List Char)
    (s_chunk_overlap d_num_chunks : Nat) (fs : FS) : Except PyError FS :=
  match scan_files dataset_name model_name s_chunk_overlap d_num_chunks fs with
  | .error e => .error e
  | .ok processed =>
    if (List.range d_num_chunks).any
        (fun i => ! (processed.map Prod.snd).contains i) then
      .ok fs
    else
      let sorted_paths := sortByKey merge_sort_key (processed.map Prod.fst)
      match load_all fs sorted_paths with
      | .error e => .error e
      | .ok embeddings =>
        if embeddings = [] then .error .valueError
        else
          let all_embeddings := embeddings.flatten
          let fs1 := runOps fs
            (merge_write_ops dataset_name model_name s_chunk_overlap
              all_embeddings)
          unlink_all fs1 sorted_paths

instance {ε α : Type} [DecidableEq ε] [DecidableEq α] : DecidableEq (Except ε α)
  | .error e, .error f =>
    if h : e = f then .isTrue (h ▸ rfl)
    else .isFalse (fun hh => h (Except.error.inj hh))
  | .error _, .ok _ => .isFalse (fun hh => Except.noConfusion hh)
  | .ok _, .error _ => .isFalse (fun hh => Except.noConfusion hh)
  | .ok a, .ok b =>
    if h : a = b then .isTrue (h ▸ rfl)
    else .isFalse (fun hh => h (Except.ok.inj hh))

/-! ## Lemmas about chunking -/

theorem py_range_length (stop step : Nat) :
    (py_range stop step).length = (stop + step - 1) / step := by
  simp [py_range]

theorem py_range_getElem (stop step j : Nat) (hj : j < (py_range stop step).length) :
    (py_range stop step)[j] = j * step := by
  simp only [py_range] at hj ⊢
  rw [List.getElem_map, List.getElem_range]

theorem pySlice_eq_specWindow (xs : List α) (i len : Nat) :
    pySlice xs i len = specWindow xs i len := by
  simp only [pySlice, specWindow]
  rw [List.drop_take]
  congr 1
  omega

/-- Claim C2 (corrected): chunking a zero-length input produces the empty
list of windows (zero windows, not one), for every valid configuration. -/
theorem chunk_empty_input_yields_no_window (C O : Nat) (h : O < C) :
    chunk_sequence [] C O = Except.ok [] ∧
    chunk_tokens [] C O = Except.ok [] := by
  have hC : ¬ C ≤ O := by omega
  have hr : (C - O - 1) / (C - O) = 0 := Nat.div_eq_of_lt (by omega)
  constructor <;>
    simp [chunk_sequence, chunk_tokens, hC, py_range, hr]

/-- Witness for C2's amended theorem at C = 3, O = 0. -/
theorem chunk_empty_input_yields_no_window_witness :
    chunk_sequence [] 3 0 = Except.ok [] ∧
    chunk_tokens [] 3 0 = Except.ok [] :=
  chunk_empty_input_yields_no_window 3 0 (by decide)

/-- Counterexample to claim C2 as stated: at chunk_length 3, overlap 0, the
zero-length input yields the empty list of windows, not a single empty
window. -/
theorem chunk_empty_input_counterexample :
    chunk_sequence [] 3 0 = Except.ok [] ∧
    ¬ ∃ w : List Char, chunk_sequence [] 3 0 = Except.ok [w] := by
  refine ⟨by decide, ?_⟩
  rintro ⟨w, hw⟩
  rw [show chunk_sequence [] 3 0 = Except.ok [] by decide] at hw
  simpa using Except.ok.inj hw

/-- Claim C9 (confirmed): for every overlap_size ≥ chunk_length, both
chunk_sequence and chunk_tokens fail with ValueError, for every input. -/
theorem chunker_boundary_rejection (C O : Nat) (h : C ≤ O)
    (s : List Char) (t : List Int) :
    chunk_sequence s C O = Except.error PyError.valueError ∧
    chunk_tokens t C O = Except.error PyError.valueError := by
  constructor <;> simp [chunk_sequence, chunk_tokens, h]

/-- Witness for C9 at C = 2, O = 3 on concrete inputs. -/
theorem chunker_boundary_rejection_witness :
    chunk_sequence ['a', 'b', 'c'] 2 3 = Except.error PyError.valueError ∧
    chunk_tokens [1, 2] 2 3 = Except.error PyError.valueError :=
  chunker_boundary_rejection 2 3 (by decide) ['a', 'b', 'c'] [1, 2]

/-- Claim C10 (confirmed): chunk_sequence and chunk_tokens are the same
chunking algorithm on two input types — on inputs of equal length they
produce the same number of windows, and the j-th window of each is the
slice of its input covering index range
[j*(C-O), j*(C-O)+C) clipped to the input length. -/
theorem chunkers_agree (C O : Nat) (h : O < C) (s : List Char) (t : List Int)
    (hlen : t.length = s.length) :
    ∃ cs ts, chunk_sequence s C O = Except.ok cs ∧
      chunk_tokens t C O = Except.ok ts ∧
      cs.length = ts.length ∧
      (∀ j : Fin cs.length, cs.get j = specWindow s (j.1 * (C - O)) C) ∧
      (∀ j : Fin ts.length, ts.get j = specWindow t (j.1 * (C - O)) C) := by
  have hC : ¬ C ≤ O := by omega
  refine ⟨(py_range s.length (C - O)).map (fun i => pySlice s i C),
    (py_range t.length (C - O)).map (fun i => pySlice t i C),
    by simp [chunk_sequence, hC], by simp [chunk_tokens, hC], ?_, ?_, ?_⟩
  · simp [py_range_length, hlen]
  · intro j
    have hj := j.2
    simp only [List.length_map] at hj
    simp only [List.get_eq_getElem, List.getElem_map,
      py_range_getElem _ _ _ hj, pySlice_eq_specWindow]
  · intro j
    have hj := j.2
    simp only [List.length_map] at hj
    simp only [List.get_eq_getElem, List.getElem_map,
      py_range_getElem _ _ _ hj, pySlice_eq_specWindow]

/-- Witness for C10 at C = 3, O = 1 on a length-5 string and token list. -/
theorem chunkers_agree_witness :
    ∃ cs ts, chunk_sequence ['a', 'b', 'c', 'd', 'e'] 3 1 = Except.ok cs ∧
      chunk_tokens [10, 20, 30, 40, 50] 3 1 = Except.ok ts ∧
      cs.length = ts.length ∧
      (∀ j : Fin cs.length,
        cs.get j = specWindow ['a', 'b', 'c', 'd', 'e'] (j.1 * (3 - 1)) 3) ∧
      (∀ j : Fin ts.length,
        ts.get j = specWindow [10, 20, 30, 40, 50] (j.1 * (3 - 1)) 3) :=
  chunkers_agree 3 1 (by decide) ['a', 'b', 'c', 'd', 'e'] [10, 20, 30, 40, 50]
    (by decide)

/-! ## Lemmas about sharding -/

/-- Counterexample to claim C3 as stated: for N = 10 rows and K = 2 shards
(K exactly divides N), the code's shard size is 10 / 2 + 1 = 6, not
ceil(10 / 2) = 5; shard 0 has 6 rows. -/
theorem shard_size_counterexample :
    d_chunk_size 10 2 = 6 ∧ d_chunk_size 10 2 ≠ 5 ∧
    (get_dataset_chunk (List.range 10) 2 0).length = 6 := by
  decide

/-- Claim C3 (corrected): for shard count K > 0 the code computes
shard_size = N / K + 1 (floor division plus one, not ceiling division), and
the shard at index i covers rows [i*shard_size, (i+1)*shard_size) clamped to
[0, N); when shard count is 0, shard_size = N and the whole dataset is
returned. -/
theorem get_dataset_chunk_spec (df : List α) (K i : Nat) (hK : 0 < K) :
    d_chunk_size df.length K = df.length / K + 1 ∧
    (get_dataset_chunk df K i).length =
      min ((i + 1) * (df.length / K + 1)) df.length -
        i * (df.length / K + 1) ∧
    (∀ j : Fin (get_dataset_chunk df K i).length,
      df[i * (df.length / K + 1) + j.1]? = some ((get_dataset_chunk df K i).get j)) ∧
    (∀ df2 : List α, ∀ i2,
      d_chunk_size df2.length 0 = df2.length ∧
      get_dataset_chunk df2 0 i2 = df2) := by
  have hK0 : K ≠ 0 := by omega
  have hchunk : get_dataset_chunk df K i
      = (df.drop ((df.length / K + 1) * i)).take (df.length / K + 1) := by
    simp [get_dataset_chunk, d_chunk_size, hK0, pySlice]
  refine ⟨by simp [d_chunk_size, hK0], ?_, ?_, ?_⟩
  · rw [hchunk, List.length_take, List.length_drop]
    have h1 : (i + 1) * (df.length / K + 1)
        = i * (df.length / K + 1) + (df.length / K + 1) := by ring
    have h2 : (df.length / K + 1) * i = i * (df.length / K + 1) := by ring
    rw [h1, h2]
    generalize df.length / K + 1 = s
    generalize i * s = p
    omega
  · intro j
    obtain ⟨jv, hj⟩ := j
    have hj2 := hj
    rw [hchunk, List.length_take, List.length_drop] at hj2
    have hb2 : (df.length / K + 1) * i + jv < df.length := by omega
    have hidx : i * (df.length / K + 1) + jv
        = (df.length / K + 1) * i + jv := by ring
    have hget : (get_dataset_chunk df K i).get ⟨jv, hj⟩
        = df.get ⟨(df.length / K + 1) * i + jv, hb2⟩ := by
      simp only [List.get_eq_getElem]
      rw [List.getElem_of_eq hchunk, List.getElem_take, List.getElem_drop]
    rw [hidx, List.getElem?_eq_getElem hb2, Option.some_inj, hget,
      List.get_eq_getElem]
  · intro df2 i2
    exact ⟨by simp [d_chunk_size], by simp [get_dataset_chunk]⟩

/-- Witness for C3's amended theorem at N = 10, K = 3, i = 2. -/
theorem get_dataset_chunk_spec_witness :
    d_chunk_size (List.range 10).length 3 = (List.range 10).length / 3 + 1 ∧
    (get_dataset_chunk (List.range 10) 3 2).length =
      min ((2 + 1) * ((List.range 10).length / 3 + 1)) (List.range 10).length -
        2 * ((List.range 10).length / 3 + 1) ∧
    (∀ j : Fin (get_dataset_chunk (List.range 10) 3 2).length,
      (List.range 10)[2 * ((List.range 10).length / 3 + 1) + j.1]? =
        some ((get_dataset_chunk (List.range 10) 3 2).get j)) ∧
    (∀ df2 : List Nat, ∀ i2,
      d_chunk_size df2.length 0 = df2.length ∧
      get_dataset_chunk df2 0 i2 = df2) :=
  get_dataset_chunk_spec (List.range 10) 3 2 (by decide)

/-- Concatenating consecutive clipped slices of width s starting at
multiples of s reconstructs the first m*s elements. -/
theorem flatten_slices (xs : List α) (s m : Nat) :
    ((List.range m).map (fun i => pySlice xs (s * i) s)).flatten =
      xs.take (m * s) := by
  induction m with
  | zero => simp
  | succ m ih =>
    rw [List.range_succ, List.map_append, List.flatten_append, ih]
    simp only [List.map_cons, List.map_nil, List.flatten_cons,
      List.flatten_nil, List.append_nil, pySlice]
    rw [Nat.succ_mul, List.take_add, Nat.mul_comm s m]

/-- Claim C4 (confirmed): for every dataset and shard count K > 0, the
shards selected by get_dataset_chunk at indices 0..K-1, concatenated in
index order, are exactly the dataset — every row is in exactly one shard,
none is missing, none is duplicated. -/
theorem shards_partition_dataset (df : List α) (K : Nat) (hK : 0 < K) :
    ((List.range K).map (fun i => get_dataset_chunk df K i)).flatten = df := by
  have hK0 : K ≠ 0 := by omega
  have hmod := Nat.mod_lt df.length hK
  have hdivmod := Nat.div_add_mod df.length K
  have hcover : df.length ≤ K * (d_chunk_size df.length K) := by
    simp only [d_chunk_size, hK0, if_false, Nat.mul_add, Nat.mul_one]
    nlinarith [Nat.div_mul_le_self df.length K, Nat.mul_div_le df.length K]
  calc ((List.range K).map (fun i => get_dataset_chunk df K i)).flatten
      = ((List.range K).map
          (fun i => pySlice df (d_chunk_size df.length K * i)
            (d_chunk_size df.length K))).flatten := by
        simp [get_dataset_chunk, hK0]
    _ = df.take (K * d_chunk_size df.length K) := flatten_slices ..
    _ = df := List.take_of_length_le hcover

/-- Witness for C4 at N = 10, K = 3. -/
theorem shards_partition_dataset_witness :
    ((List.range 3).map (fun i => get_dataset_chunk (List.range 10) 3 i)).flatten =
      List.range 10 :=
  shards_partition_dataset (List.range 10) 3 (by decide)

/-! ## Lemmas about embed_dataset -/

/-- Flattening a map whose images are all one-row matrices yields the list
of those single rows, in order. -/
theorem flatten_of_length_one (l : List α) (f : α → List (List E))
    (h : ∀ x ∈ l, (f x).length = 1) :
    (l.map f).flatten = l.map (fun x => (f x).headD []) := by
  induction l with
  | nil => rfl
  | cons x rest ih =>
    have hx : f x = [(f x).headD []] := by
      match hfx : f x with
      | [] => simp [hfx] at h
      | [a] => simp
      | a :: b :: r =>
        have := h x (by simp)
        simp [hfx] at this
    rw [List.map_cons, List.flatten_cons, ih (fun y hy => h y (by simp [hy]))]
    conv_lhs => rw [hx]
    simp

theorem torch_cat_ok (ts : List (List (List E))) (h : ts ≠ []) :
    torch_cat ts = Except.ok ts.flatten := by
  match ts, h with
  | t :: ts2, _ => rfl

/-- Counterexample to claim C7 as stated: a reachable empty shard (3 rows
split into 4 shards gives shard size 3/4+1 = 1, so shard index 3 covers rows
[3, 4) clamped to nothing) makes embed_dataset raise RuntimeError — torch.cat
is called on an empty list — instead of returning a 0-row matrix. -/
theorem embed_dataset_empty_shard_counterexample :
    embed_dataset
        (Model.mk false (fun s _ => [[(s.length : Int)]]) (fun _ _ _ _ => [[0]]))
        0 [⟨['a'], [], []⟩, ⟨['b'], [], []⟩, ⟨['c'], [], []⟩] 4 3
      = Except.error PyError.runtimeError ∧
    ∀ out : List (List Int),
      embed_dataset
          (Model.mk false (fun s _ => [[(s.length : Int)]]) (fun _ _ _ _ => [[0]]))
          0 [⟨['a'], [], []⟩, ⟨['b'], [], []⟩, ⟨['c'], [], []⟩] 4 3
        ≠ Except.ok out := by
  refine ⟨rfl, fun out h => ?_⟩
  have h2 : Except.error PyError.runtimeError = Except.ok out := h
  exact Except.noConfusion h2

/-- Claim C7 (corrected): for every non-empty shard, embed_dataset returns
one row per shard row, in original order — row j of the stacked output is
exactly the (single) row of the matrix the model produced for the shard's
j-th row, where the model is invoked through the is_sixtrack branch of the
loop body; an empty shard instead raises (torch.cat on an empty list).
The shape hypothesis is the documented model contract that each embedding
is a (1 x H), i.e. one-row, matrix. -/
theorem embed_dataset_row_order (m : Model E) (ov : Nat) (df : List DataRow)
    (K ind : Nat)
    (hshape : ∀ r ∈ get_dataset_chunk df K ind, (embed_row m ov r).length = 1)
    (hne : get_dataset_chunk df K ind ≠ []) :
    ∃ out, embed_dataset m ov df K ind = Except.ok out ∧
      out.length = (get_dataset_chunk df K ind).length ∧
      ∀ j : Fin (get_dataset_chunk df K ind).length,
        out[j.1]? =
          some ((embed_row m ov ((get_dataset_chunk df K ind).get j)).headD []) := by
  have hfl := flatten_of_length_one (get_dataset_chunk df K ind)
    (embed_row m ov) hshape
  have hmapne : (get_dataset_chunk df K ind).map (embed_row m ov) ≠ [] := by
    simp [List.map_eq_nil_iff, hne]
  refine ⟨((get_dataset_chunk df K ind).map (embed_row m ov)).flatten,
    by rw [embed_dataset, torch_cat_ok _ hmapne], ?_, ?_⟩
  · rw [hfl, List.length_map]
  · intro j
    obtain ⟨jv, hj⟩ := j
    rw [hfl]
    rw [List.getElem?_eq_getElem (by simpa using hj)]
    rw [List.getElem_map, Option.some_inj, List.get_eq_getElem]

/-- Witness for C7's amended theorem: a stub model tagging output rows by
input sequence length, on a three-row unsharded dataset. -/
theorem embed_dataset_row_order_witness :
    ∃ out, embed_dataset
        (Model.mk false (fun s _ => [[(s.length : Int)]]) (fun _ _ _ _ => [[0]]))
        0 [⟨['a'], [], []⟩, ⟨['b', 'b'], [], []⟩, ⟨[], [], []⟩] 0 0
      = Except.ok out ∧
      out.length = (get_dataset_chunk
        [(⟨['a'], [], []⟩ : DataRow), ⟨['b', 'b'], [], []⟩, ⟨[], [], []⟩] 0 0).length ∧
      ∀ j : Fin (get_dataset_chunk
          [(⟨['a'], [], []⟩ : DataRow), ⟨['b', 'b'], [], []⟩, ⟨[], [], []⟩] 0 0).length,
        out[j.1]? =
          some ((embed_row
              (Model.mk false (fun s _ => [[(s.length : Int)]]) (fun _ _ _ _ => [[0]]))
              0 ((get_dataset_chunk
                [(⟨['a'], [], []⟩ : DataRow), ⟨['b', 'b'], [], []⟩, ⟨[], [], []⟩]
                0 0).get j)).headD []) :=
  embed_dataset_row_order
    (Model.mk false (fun s _ => [[(s.length : Int)]]) (fun _ _ _ _ => [[0]]))
    0 [⟨['a'], [], []⟩, ⟨['b', 'b'], [], []⟩, ⟨[], [], []⟩] 0 0
    (fun _ _ => rfl) (by decide)

/-! ## Write atomicity (C5) -/

/-- Counterexample to claim C5 as stated: persist_embeddings writes its shard
artifact by one direct np.savez_compressed call at the final path, so a
crash mid-write leaves a truncated artifact visible at the final path —
shown here at a concrete shard write into an empty directory. -/
theorem persist_not_atomic_counterexample :
    ¬ ∀ st ∈ crashStates ([] : FS)
        (persist_embeddings_ops ['d', 's'] ['m'] 0 0 3 [[5]]),
      fsFind st (get_output_filename ['d', 's'] ['m'] 0 0 3) ≠
        some FileData.truncated := by
  decide

/-- Claim C5 (corrected): persist_embeddings and the merged-artifact write
in merge_embeddings each perform a single direct (non-atomic) file write at
the final path — there is no temporary file and no rename — and for every
starting directory a crash in the middle of that write leaves a truncated
(partially-written) artifact visible at the final path. -/
theorem artifact_writes_not_atomic (ds mdl : List Char) (o ind K : Nat)
    (rows : List (List Int)) (fs : FS) :
    ¬ atomicWriteDiscipline (persist_embeddings_ops ds mdl o ind K rows)
        (get_output_filename ds mdl o ind K) ∧
    fsWrite fs (get_output_filename ds mdl o ind K) FileData.truncated ∈
      crashStates fs (persist_embeddings_ops ds mdl o ind K rows) ∧
    ¬ atomicWriteDiscipline (merge_write_ops ds mdl o rows)
        (get_output_filename ds mdl o 0 0) ∧
    fsWrite fs (get_output_filename ds mdl o 0 0) FileData.truncated ∈
      crashStates fs (merge_write_ops ds mdl o rows) := by
  refine ⟨fun h => ?_, ?_, fun h => ?_, ?_⟩
  · exact h _ (by simp [persist_embeddings_ops, savez_ops]) rows rfl
  · simp [persist_embeddings_ops, savez_ops, crashStates]
  · exact h _ (by simp [merge_write_ops, savez_ops]) rows rfl
  · simp [merge_write_ops, savez_ops, crashStates]

/-! ## Deletion of missing shard files (C6) -/

theorem fsUnlink_of_absent (fs : FS) (p : List Char) (h : fsFind fs p = none) :
    fsUnlink fs p = Except.error PyError.fileNotFoundError := by
  induction fs with
  | nil => rfl
  | cons e rest ih =>
    obtain ⟨n, d⟩ := e
    by_cases hn : n = p
    · simp [fsFind, hn] at h
    · simp only [fsFind, hn, if_false] at h
      simp [fsUnlink, hn, ih h, Except.map]

theorem fsUnlink_preserves_absent (fs fs2 : FS) (q p : List Char)
    (hq : fsUnlink fs q = Except.ok fs2) (h : fsFind fs p = none) :
    fsFind fs2 p = none := by
  induction fs generalizing fs2 with
  | nil => simp [fsUnlink] at hq
  | cons e rest ih =>
    obtain ⟨n, d⟩ := e
    by_cases hn : n = q
    · rw [fsUnlink, if_pos hn] at hq
      obtain rfl : rest = fs2 := Except.ok.inj hq
      simp only [fsFind] at h
      by_cases hp : n = p
      · simp [hp] at h
      · simpa [hp] using h
    · rw [fsUnlink, if_neg hn] at hq
      match hrec : fsUnlink rest q with
      | .error e2 => rw [hrec] at hq; simp [Except.map] at hq
      | .ok rest2 =>
        rw [hrec] at hq
        obtain rfl : (n, d) :: rest2 = fs2 := Except.ok.inj hq
        simp only [fsFind] at h ⊢
        by_cases hp : n = p
        · simp [hp] at h
        · simp only [hp, if_false] at h ⊢
          exact ih rest2 hrec h

theorem fsUnlink_error_eq (fs : FS) (q : List Char) (e : PyError)
    (h : fsUnlink fs q = Except.error e) : e = PyError.fileNotFoundError := by
  induction fs with
  | nil =>
    rw [fsUnlink] at h
    exact (Except.error.inj h).symm
  | cons ent rest ih =>
    obtain ⟨n, d⟩ := ent
    rw [fsUnlink] at h
    by_cases hn : n = q
    · simp [hn] at h
    · rw [if_neg hn] at h
      match hrec : fsUnlink rest q with
      | .ok f2 => rw [hrec] at h; simp [Except.map] at h
      | .error e2 =>
        rw [hrec] at h
        simp only [Except.map] at h
        have he : e2 = e := Except.error.inj h
        subst he
        exact ih hrec

/-- Counterexample to claim C6 as stated: the deletion phase of
merge_embeddings raises FileNotFoundError on a shard path that is absent
from the directory, instead of completing without error — shown at a
concrete shard path in an empty directory. -/
theorem unlink_missing_counterexample :
    unlink_all [] [get_output_filename ['d', 's'] ['m'] 0 0 3] =
      Except.error PyError.fileNotFoundError := by
  decide

/-- Claim C6 (corrected): during the deletion phase of merge_embeddings,
deleting a shard file that no longer exists is an error, not a silent
success — if any path in the deletion set is absent from the directory, the
deletion loop raises FileNotFoundError (Path.unlink is called without
missing_ok). -/
theorem unlink_all_missing_raises (fs : FS) (paths : List (List Char))
    (p : List Char) (hp : p ∈ paths) (habs : fsFind fs p = none) :
    unlink_all fs paths = Except.error PyError.fileNotFoundError := by
  induction paths generalizing fs with
  | nil => simp at hp
  | cons q rest ih =>
    rw [unlink_all]
    rcases List.mem_cons.mp hp with rfl | hmem
    · rw [fsUnlink_of_absent fs p habs]
    · match hq : fsUnlink fs q with
      | .error e2 => rw [fsUnlink_error_eq fs q e2 hq]
      | .ok fs2 => exact ih fs2 hmem (fsUnlink_preserves_absent fs fs2 q p hq habs)

/-- Witness for C6's amended theorem: a directory holding only shard 0's
artifact; deleting shard 0 then shard 1 raises FileNotFoundError. -/
theorem unlink_all_missing_raises_witness :
    unlink_all [(get_output_filename ['d', 's'] ['m'] 0 0 3, FileData.full [[1]])]
      [get_output_filename ['d', 's'] ['m'] 0 0 3,
        get_output_filename ['d', 's'] ['m'] 0 1 3] =
      Except.error PyError.fileNotFoundError :=
  unlink_all_missing_raises
    [(get_output_filename ['d', 's'] ['m'] 0 0 3, FileData.full [[1]])]
    [get_output_filename ['d', 's'] ['m'] 0 0 3,
      get_output_filename ['d', 's'] ['m'] 0 1 3]
    (get_output_filename ['d', 's'] ['m'] 0 1 3)
    (by decide) (by decide)

/-! ## Decimal rendering and parsing lemmas -/

theorem digitChar_isDigit (d : Nat) (hd : d < 10) :
    (digitChar d).isDigit = true := by
  interval_cases d <;> decide

theorem digitChar_toNat (d : Nat) (hd : d < 10) :
    (digitChar d).toNat = 48 + d := by
  interval_cases d <;> decide

theorem natCharsAux_fuel (f1 f2 n : Nat) (h1 : n < f1) (h2 : n < f2) :
    natCharsAux f1 n = natCharsAux f2 n := by
  induction f1 generalizing f2 n with
  | zero => omega
  | succ f1 ih =>
    match f2, h2 with
    | f2 + 1, hh =>
      rw [natCharsAux, natCharsAux]
      by_cases hn : n < 10
      · simp [hn]
      · rw [if_neg hn, if_neg hn]
        have hlt : n / 10 < n := Nat.div_lt_self (by omega) (by omega)
        rw [ih f2 (n / 10) (by omega) (by omega)]

theorem natChars_mem_isDigit (n : Nat) (c : Char) (hc : c ∈ natChars n) :
    c.isDigit = true := by
  rw [natChars] at hc
  generalize hf : n + 1 = fuel at hc
  have hlt : n < fuel := by omega
  clear hf
  induction fuel generalizing n with
  | zero => omega
  | succ fuel ih =>
    rw [natCharsAux] at hc
    by_cases hn : n < 10
    · rw [if_pos hn] at hc
      simp only [List.mem_singleton] at hc
      exact hc ▸ digitChar_isDigit n hn
    · rw [if_neg hn] at hc
      rcases List.mem_append.mp hc with hc2 | hc2
      · have hdiv : n / 10 < n := Nat.div_lt_self (by omega) (by omega)
        exact ih (n / 10) hc2 (by omega)
      · simp only [List.mem_singleton] at hc2
        exact hc2 ▸ digitChar_isDigit (n % 10) (Nat.mod_lt n (by omega))

theorem natChars_ne_nil (n : Nat) : natChars n ≠ [] := by
  rw [natChars]
  generalize hf : n + 1 = fuel
  have hlt : n < fuel := by omega
  clear hf
  match fuel, hlt with
  | fuel + 1, _ =>
    rw [natCharsAux]
    by_cases hn : n < 10
    · simp [hn]
    · simp [hn]

theorem charsToNat_go_append (a b : List Char) (acc : Nat) :
    charsToNat?.go (acc) (a ++ b)
      = (charsToNat?.go acc a).bind (fun m => charsToNat?.go m b) := by
  induction a generalizing acc with
  | nil => simp [charsToNat?.go]
  | cons c rest ih =>
    rw [List.cons_append, charsToNat?.go, charsToNat?.go]
    by_cases hc : c.isDigit
    · rw [if_pos hc, if_pos hc, ih]
    · rw [if_neg hc, if_neg hc]
      rfl

theorem charsToNat_go_digit (d acc : Nat) (hd : d < 10) :
    charsToNat?.go acc [digitChar d] = some (acc * 10 + d) := by
  rw [charsToNat?.go, if_pos (digitChar_isDigit d hd), charsToNat?.go,
    digitChar_toNat d hd]
  congr 1
  omega

theorem charsToNat_go_natChars (n : Nat) :
    ∀ acc, charsToNat?.go acc (natChars n)
      = some (acc * 10 ^ (natChars n).length + n) := by
  induction n using Nat.strong_induction_on with
  | _ n ih =>
    intro acc
    by_cases hn : n < 10
    · have hform : natChars n = [digitChar n] := by
        rw [natChars, natCharsAux, if_pos hn]
      rw [hform, charsToNat_go_digit n acc hn]
      simp
    · have hdiv : n / 10 < n := Nat.div_lt_self (by omega) (by omega)
      have hform : natChars n
          = natChars (n / 10) ++ [digitChar (n % 10)] := by
        rw [natChars, natCharsAux, if_neg hn, natChars]
        rw [natCharsAux_fuel n (n / 10 + 1) (n / 10) (by omega) (by omega)]
      rw [hform, charsToNat_go_append, ih (n / 10) hdiv acc, Option.some_bind,
        charsToNat_go_digit (n % 10) _ (Nat.mod_lt n (by omega))]
      congr 1
      rw [List.length_append, List.length_singleton, pow_succ]
      have := Nat.div_add_mod n 10
      ring_nf
      omega

theorem charsToNat_natChars (n : Nat) : charsToNat? (natChars n) = some n := by
  rw [charsToNat?, if_neg (natChars_ne_nil n), charsToNat_go_natChars n 0]
  simp

theorem underscore_not_mem_natChars (n : Nat) : '_' ∉ natChars n := by
  intro h
  have := natChars_mem_isDigit n '_' h
  simp at this

theorem dash_not_mem_natChars (n : Nat) : '-' ∉ natChars n := by
  intro h
  have := natChars_mem_isDigit n '-' h
  simp at this

/-! ## String splitting lemmas -/

theorem splitOnChar_ne_nil (sep : Char) (l : List Char) :
    splitOnChar sep l ≠ [] := by
  induction l with
  | nil => simp [splitOnChar]
  | cons c rest ih =>
    rw [splitOnChar]
    match h : splitOnChar sep rest with
    | [] => exact absurd h ih
    | piece :: pieces => by_cases hc : c = sep <;> simp [hc]

theorem splitOnChar_not_mem (sep : Char) (a : List Char) (h : sep ∉ a) :
    splitOnChar sep a = [a] := by
  induction a with
  | nil => rfl
  | cons c rest ih =>
    have hc : ¬ c = sep := fun hh => h (by simp [hh])
    have hrest : sep ∉ rest := fun hh => h (by simp [hh])
    rw [splitOnChar, ih hrest]
    simp [hc]

theorem splitOnChar_append (sep : Char) (a b : List Char) (h : sep ∉ a) :
    splitOnChar sep (a ++ sep :: b) = a :: splitOnChar sep b := by
  induction a with
  | nil =>
    simp only [List.nil_append]
    rw [splitOnChar]
    match hb : splitOnChar sep b with
    | [] => exact absurd hb (splitOnChar_ne_nil sep b)
    | piece :: pieces => simp
  | cons c rest ih =>
    have hc : ¬ c = sep := fun hh => h (by simp [hh])
    have hrest : sep ∉ rest := fun hh => h (by simp [hh])
    rw [List.cons_append, splitOnChar, ih hrest]
    simp [hc]

/-! ## Stem parsing lemmas -/

theorem shard_stem_split (ds mdl : List Char) (hds : '_' ∉ ds)
    (hmdl : '_' ∉ mdl) (o i K : Nat) (hK : K ≠ 0) :
    splitOnChar '_' (get_output_filename ds mdl o i K)
      = [ds, mdl, 'o' :: natChars o, natChars i ++ '-' :: natChars K] := by
  have h3 : '_' ∉ 'o' :: natChars o := by
    intro hh
    rcases List.mem_cons.mp hh with h1 | h1
    · exact absurd h1 (by decide)
    · exact underscore_not_mem_natChars o h1
  have h4 : ('_' : Char) ∉ natChars i ++ '-' :: natChars K := by
    intro hh
    rcases List.mem_append.mp hh with h1 | h1
    · exact underscore_not_mem_natChars i h1
    · rcases List.mem_cons.mp h1 with h2 | h2
      · exact absurd h2 (by decide)
      · exact underscore_not_mem_natChars K h2
  have hnorm : get_output_filename ds mdl o i K
      = ds ++ '_' :: (mdl ++ '_' :: (('o' :: natChars o) ++
          '_' :: (natChars i ++ '-' :: natChars K))) := by
    rw [get_output_filename, if_neg hK]
    simp [List.append_assoc]
  rw [hnorm, splitOnChar_append '_' ds _ hds,
    splitOnChar_append '_' mdl _ hmdl,
    splitOnChar_append '_' ('o' :: natChars o) _ h3,
    splitOnChar_not_mem '_' _ h4]

theorem merged_stem_split (ds mdl : List Char) (hds : '_' ∉ ds)
    (hmdl : '_' ∉ mdl) (o : Nat) :
    splitOnChar '_' (get_output_filename ds mdl o 0 0)
      = [ds, mdl, 'o' :: natChars o] := by
  have h3 : '_' ∉ 'o' :: natChars o := by
    intro hh
    rcases List.mem_cons.mp hh with h1 | h1
    · exact absurd h1 (by decide)
    · exact underscore_not_mem_natChars o h1
  have hnorm : get_output_filename ds mdl o 0 0
      = ds ++ '_' :: (mdl ++ '_' :: ('o' :: natChars o)) := by
    rw [get_output_filename, if_pos rfl]
    simp [List.append_assoc]
  rw [hnorm, splitOnChar_append '_' ds _ hds,
    splitOnChar_append '_' mdl _ hmdl,
    splitOnChar_not_mem '_' _ h3]

theorem coords_split (i K : Nat) :
    splitOnChar '-' (natChars i ++ '-' :: natChars K)
      = [natChars i, natChars K] := by
  rw [splitOnChar_append '-' _ _ (dash_not_mem_natChars i),
    splitOnChar_not_mem '-' _ (dash_not_mem_natChars K)]

theorem scan_one_shard (ds mdl : List Char) (hds : '_' ∉ ds)
    (hmdl : '_' ∉ mdl) (o K i : Nat) (hK : K ≠ 0) :
    scan_one ds mdl o K (get_output_filename ds mdl o i K)
      = Except.ok (some i) := by
  rw [scan_one]
  simp only [shard_stem_split ds mdl hds hmdl o i K hK]
  simp [coords_split, charsToNat_natChars]

theorem scan_one_merged (ds mdl : List Char) (hds : '_' ∉ ds)
    (hmdl : '_' ∉ mdl) (o K : Nat) :
    scan_one ds mdl o K (get_output_filename ds mdl o 0 0)
      = Except.error PyError.indexError := by
  rw [scan_one]
  simp only [merged_stem_split ds mdl hds hmdl o]
  simp [charsToNat_natChars]

theorem merge_sort_key_shard (ds mdl : List Char) (hds : '_' ∉ ds)
    (hmdl : '_' ∉ mdl) (o i K : Nat) (hK : K ≠ 0) :
    merge_sort_key (get_output_filename ds mdl o i K) = i := by
  rw [merge_sort_key]
  simp only [shard_stem_split ds mdl hds hmdl o i K hK]
  simp [coords_split, charsToNat_natChars]

theorem shard_stem_ne_merged (ds mdl : List Char) (hds : '_' ∉ ds)
    (hmdl : '_' ∉ mdl) (o i K : Nat) (hK : K ≠ 0) :
    get_output_filename ds mdl o i K ≠ get_output_filename ds mdl o 0 0 := by
  intro heq
  have h1 := scan_one_shard ds mdl hds hmdl o K i hK
  rw [heq, scan_one_merged ds mdl hds hmdl o K] at h1
  exact Except.noConfusion h1

/-! ## Merge lemmas -/

theorem scan_files_shards (ds mdl : List Char) (hds : '_' ∉ ds)
    (hmdl : '_' ∉ mdl) (o K : Nat) (hK : K ≠ 0) (inds : List Nat)
    (d : Nat → FileData) :
    scan_files ds mdl o K
        (inds.map (fun i => (get_output_filename ds mdl o i K, d i)))
      = Except.ok (inds.map (fun i => (get_output_filename ds mdl o i K, i))) := by
  induction inds with
  | nil => rfl
  | cons i rest ih =>
    rw [List.map_cons, scan_files, scan_one_shard ds mdl hds hmdl o K i hK, ih]
    simp [Except.map]

/-- Claim C8 (confirmed): for shard count K > 0, when the embedding
directory holds shard artifacts for an index set that misses some index
k < K, merge_embeddings returns the directory unchanged — no error is
raised, no merged artifact is written, no file is deleted. -/
theorem merge_incomplete_noop (ds mdl : List Char) (hds : '_' ∉ ds)
    (hmdl : '_' ∉ mdl) (o K : Nat) (inds : List Nat) (em : Nat → List (List Int))
    (k : Nat) (hk : k < K) (hmiss : k ∉ inds) :
    merge_embeddings ds mdl o K
        (inds.map (fun i => (get_output_filename ds mdl o i K, FileData.full (em i))))
      = Except.ok
          (inds.map (fun i => (get_output_filename ds mdl o i K, FileData.full (em i)))) := by
  have hK : K ≠ 0 := by omega
  have hsnd : List.map Prod.snd
      (List.map (fun i => (get_output_filename ds mdl o i K, i)) inds) = inds := by
    have hid : (Prod.snd ∘ fun i => (get_output_filename ds mdl o i K, i))
        = (id : Nat → Nat) := rfl
    rw [List.map_map, hid, List.map_id]
  have hc : inds.contains k = false := by
    simp [hmiss]
  have hany : ((List.range K).any fun i => ! inds.contains i) = true :=
    List.any_eq_true.mpr ⟨k, List.mem_range.mpr hk, by rw [hc]; rfl⟩
  simp only [merge_embeddings,
    scan_files_shards ds mdl hds hmdl o K hK inds (fun i => FileData.full (em i)),
    hsnd, hany, if_true]

/-- Witness for C8: shards {0, 2} of 3 present, index 1 missing. -/
theorem merge_incomplete_noop_witness :
    merge_embeddings ['d', 's'] ['m'] 0 3
        ([0, 2].map (fun i =>
          (get_output_filename ['d', 's'] ['m'] 0 i 3, FileData.full [[Int.ofNat i]])))
      = Except.ok
          ([0, 2].map (fun i =>
            (get_output_filename ['d', 's'] ['m'] 0 i 3, FileData.full [[Int.ofNat i]]))) :=
  merge_incomplete_noop ['d', 's'] ['m'] (by decide) (by decide) 0 3 [0, 2]
    (fun i => [[Int.ofNat i]]) 1 (by decide) (by decide)

theorem shard_stem_inj (ds mdl : List Char) (hds : '_' ∉ ds)
    (hmdl : '_' ∉ mdl) (o K i j : Nat) (hK : K ≠ 0)
    (h : get_output_filename ds mdl o i K = get_output_filename ds mdl o j K) :
    i = j := by
  have h1 := merge_sort_key_shard ds mdl hds hmdl o i K hK
  have h2 := merge_sort_key_shard ds mdl hds hmdl o j K hK
  rw [← h1, ← h2, h]

theorem sortByKey_of_pairwise (key : α → Nat) (l : List α)
    (h : l.Pairwise (fun a b => key a ≤ key b)) : sortByKey key l = l := by
  induction l with
  | nil => rfl
  | cons x rest ih =>
    rw [sortByKey, ih (List.pairwise_cons.mp h).2]
    match rest, h with
    | [], _ => rfl
    | y :: rest2, h =>
      rw [insertSorted,
        if_pos ((List.pairwise_cons.mp h).1 y (by simp))]

theorem fsFind_shard (ds mdl : List Char) (hds : '_' ∉ ds) (hmdl : '_' ∉ mdl)
    (o K : Nat) (hK : K ≠ 0) (inds : List Nat) (d : Nat → FileData) (i : Nat)
    (hi : i ∈ inds) :
    fsFind (inds.map (fun j => (get_output_filename ds mdl o j K, d j)))
        (get_output_filename ds mdl o i K)
      = some (d i) := by
  induction inds with
  | nil => simp at hi
  | cons j rest ih =>
    rw [List.map_cons, fsFind]
    by_cases hj : get_output_filename ds mdl o j K = get_output_filename ds mdl o i K
    · rw [if_pos hj, shard_stem_inj ds mdl hds hmdl o K j i hK hj]
    · rw [if_neg hj]
      rcases List.mem_cons.mp hi with rfl | hmem
      · exact absurd rfl hj
      · exact ih hmem

theorem fsFind_map_none (inds : List Nat)
    (f : Nat → List Char × FileData) (name : List Char)
    (h : ∀ j ∈ inds, (f j).1 ≠ name) :
    fsFind (inds.map f) name = none := by
  induction inds with
  | nil => rfl
  | cons j rest ih =>
    rw [List.map_cons, fsFind, if_neg (h j (by simp))]
    exact ih (fun j2 hj2 => h j2 (by simp [hj2]))

theorem load_all_shards (fs : FS) (inds : List Nat) (stem : Nat → List Char)
    (em : Nat → List (List Int))
    (h : ∀ i ∈ inds, np_load fs (stem i) = Except.ok (em i)) :
    load_all fs (inds.map stem) = Except.ok (inds.map em) := by
  induction inds with
  | nil => rfl
  | cons i rest ih =>
    rw [List.map_cons, load_all, h i (by simp),
      ih (fun i2 hi2 => h i2 (by simp [hi2]))]
    simp [Except.map]

theorem fsWrite_fresh (fs : FS) (name : List Char) (d : FileData)
    (h : fsFind fs name = none) : fsWrite fs name d = fs ++ [(name, d)] := by
  induction fs with
  | nil => rfl
  | cons e rest ih =>
    obtain ⟨n, d0⟩ := e
    rw [fsFind] at h
    by_cases hn : n = name
    · simp [hn] at h
    · rw [if_neg hn] at h
      rw [fsWrite, if_neg hn, ih h, List.cons_append]

theorem unlink_all_exact (pairs : List (List Char × FileData)) (suffix : FS) :
    unlink_all (pairs ++ suffix) (pairs.map Prod.fst) = Except.ok suffix := by
  induction pairs with
  | nil => rfl
  | cons e rest ih =>
    obtain ⟨n, d⟩ := e
    rw [List.map_cons, unlink_all, List.cons_append, fsUnlink, if_pos rfl]
    exact ih

/-- Claim C1 (corrected): merge is not idempotent.  For a (dataset, model,
overlap) group with shard count K > 0 whose embedding directory holds
exactly the shard artifacts for indices 0..K-1, the first merge_embeddings
invocation leaves exactly one correct merged artifact (the shard matrices
concatenated in index order under the unsharded stem) and no shard files;
but a second invocation on the resulting directory raises IndexError while
parsing the merged artifact's three-field filename during the directory
scan, instead of returning without error. -/
theorem merge_not_idempotent (ds mdl : List Char) (hds : '_' ∉ ds)
    (hmdl : '_' ∉ mdl) (o K : Nat) (hK : 0 < K) (em : Nat → List (List Int)) :
    merge_embeddings ds mdl o K
        ((List.range K).map
          (fun i => (get_output_filename ds mdl o i K, FileData.full (em i))))
      = Except.ok
          [(get_output_filename ds mdl o 0 0,
            FileData.full (((List.range K).map em).flatten))] ∧
    merge_embeddings ds mdl o K
        [(get_output_filename ds mdl o 0 0,
          FileData.full (((List.range K).map em).flatten))]
      = Except.error PyError.indexError := by
  have hK0 : K ≠ 0 := by omega
  constructor
  · -- first invocation: a complete merge
    have hsnd : List.map Prod.snd
        (List.map (fun i => (get_output_filename ds mdl o i K, i)) (List.range K))
        = List.range K := by
      have hid : (Prod.snd ∘ fun i => (get_output_filename ds mdl o i K, i))
          = (id : Nat → Nat) := rfl
      rw [List.map_map, hid, List.map_id]
    have hfst : List.map Prod.fst
        (List.map (fun i => (get_output_filename ds mdl o i K, i)) (List.range K))
        = List.map (fun i => get_output_filename ds mdl o i K) (List.range K) := by
      rw [List.map_map]
      rfl
    have hcomplete : ((List.range K).any
        fun i => ! (List.range K).contains i) = false := by
      rw [List.any_eq_false]
      intro i hi
      simp [List.mem_range.mp hi]
    have hsort : sortByKey merge_sort_key
        (List.map (fun i => get_output_filename ds mdl o i K) (List.range K))
        = List.map (fun i => get_output_filename ds mdl o i K) (List.range K) := by
      refine sortByKey_of_pairwise _ _ (List.pairwise_map.mpr ?_)
      refine (List.pairwise_lt_range K).imp ?_
      intro a b hab
      rw [merge_sort_key_shard ds mdl hds hmdl o a K hK0,
        merge_sort_key_shard ds mdl hds hmdl o b K hK0]
      omega
    have hload : load_all
        ((List.range K).map
          (fun i => (get_output_filename ds mdl o i K, FileData.full (em i))))
        (List.map (fun i => get_output_filename ds mdl o i K) (List.range K))
        = Except.ok ((List.range K).map em) := by
      refine load_all_shards _ _ _ _ (fun i hi => ?_)
      rw [np_load,
        fsFind_shard ds mdl hds hmdl o K hK0 (List.range K)
          (fun j => FileData.full (em j)) i hi]
    have hne : ¬ ((List.range K).map em = []) := by
      simp [List.map_eq_nil_iff, List.range_eq_nil, hK0]
    have hfresh : fsFind
        ((List.range K).map
          (fun i => (get_output_filename ds mdl o i K, FileData.full (em i))))
        (get_output_filename ds mdl o 0 0) = none := by
      refine fsFind_map_none (List.range K) _ _ (fun j hj => ?_)
      exact shard_stem_ne_merged ds mdl hds hmdl o j K hK0
    have hwrite : runOps
        ((List.range K).map
          (fun i => (get_output_filename ds mdl o i K, FileData.full (em i))))
        (merge_write_ops ds mdl o (((List.range K).map em).flatten))
        = (List.range K).map
            (fun i => (get_output_filename ds mdl o i K, FileData.full (em i)))
          ++ [(get_output_filename ds mdl o 0 0,
              FileData.full (((List.range K).map em).flatten))] := by
      rw [merge_write_ops, savez_ops, runOps, List.foldl_cons, List.foldl_nil,
        applyOp, fsWrite_fresh _ _ _ hfresh]
    have hunlink : unlink_all
        ((List.range K).map
          (fun i => (get_output_filename ds mdl o i K, FileData.full (em i)))
          ++ [(get_output_filename ds mdl o 0 0,
              FileData.full (((List.range K).map em).flatten))])
        (List.map (fun i => get_output_filename ds mdl o i K) (List.range K))
        = Except.ok [(get_output_filename ds mdl o 0 0,
            FileData.full (((List.range K).map em).flatten))] := by
      have hmap : List.map (fun i => get_output_filename ds mdl o i K) (List.range K)
          = List.map Prod.fst
              ((List.range K).map
                (fun i => (get_output_filename ds mdl o i K, FileData.full (em i)))) := by
        rw [List.map_map]
        rfl
      rw [hmap, unlink_all_exact]
    simp only [merge_embeddings,
      scan_files_shards ds mdl hds hmdl o K hK0 (List.range K)
        (fun i => FileData.full (em i)),
      hsnd, hfst, hcomplete, Bool.false_eq_true, if_false, hsort, hload,
      if_neg hne, hwrite, hunlink]
  · -- second invocation: the scan crashes on the merged artifact's stem
    have hscan : scan_files ds mdl o K
        [(get_output_filename ds mdl o 0 0,
          FileData.full (((List.range K).map em).flatten))]
        = Except.error PyError.indexError := by
      rw [scan_files, scan_one_merged ds mdl hds hmdl o K]
    simp only [merge_embeddings, hscan]

/-- Witness for C1's amended theorem at a concrete group: dataset "ds",
model "m", overlap 0, three shards with one distinct row each. -/
theorem merge_not_idempotent_witness :
    merge_embeddings ['d', 's'] ['m'] 0 3
        ((List.range 3).map
          (fun i => (get_output_filename ['d', 's'] ['m'] 0 i 3,
            FileData.full [[Int.ofNat i]])))
      = Except.ok
          [(get_output_filename ['d', 's'] ['m'] 0 0 0,
            FileData.full (((List.range 3).map (fun i => [[Int.ofNat i]])).flatten))] ∧
    merge_embeddings ['d', 's'] ['m'] 0 3
        [(get_output_filename ['d', 's'] ['m'] 0 0 0,
          FileData.full (((List.range 3).map (fun i => [[Int.ofNat i]])).flatten))]
      = Except.error PyError.indexError :=
  merge_not_idempotent ['d', 's'] ['m'] (by decide) (by decide) 0 3 (by decide)
    (fun i => [[Int.ofNat i]])

/-- Counterexample to claim C1 as stated: at the concrete complete directory
of shards {0, 1, 2} of 3 for dataset "ds", model "m", overlap 0, the first
merge succeeds, but the second invocation raises IndexError rather than
returning without an exception. -/
theorem merge_idempotence_counterexample :
    merge_embeddings ['d', 's'] ['m'] 0 3
        [(get_output_filename ['d', 's'] ['m'] 0 0 3, FileData.full [[10]]),
          (get_output_filename ['d', 's'] ['m'] 0 1 3, FileData.full [[11]]),
          (get_output_filename ['d', 's'] ['m'] 0 2 3, FileData.full [[12]])]
      = Except.ok
          [(get_output_filename ['d', 's'] ['m'] 0 0 0,
            FileData.full [[10], [11], [12]])] ∧
    merge_embeddings ['d', 's'] ['m'] 0 3
        [(get_output_filename ['d', 's'] ['m'] 0 0 0,
          FileData.full [[10], [11], [12]])]
      = Except.error PyError.indexError := by
  constructor <;> rfl

end MrnaBench
